import Mathlib

/-!
Verification of the core algorithms of the MOM (Minutes-of-Meeting)
repository: the speaker-turn segmenter (`create_transcript` in
`src/utils.py` and `src/app.py`), the live-transcript aggregator
(`TranscriptCollector` and `DeepgramLiveTranscriber.on_message` in
`src/deepgram_live.py`, plus the variant `TranscriptCollector` in
`live_speech.py`), the retry loop of `MoMGenerator.generate_mom`, and the
translation dispatch of `MoMGenerator.translate_text` (both in
`src/mom_generator.py`).

Python built-ins used by the code are embedded char-by-char so that every
definition evaluates: `str.strip` as `pyStrip`, `str.lower` as `pyLower`,
and the space join `str.join` as `String.intercalate " "`.
-/

namespace MOM

/-- Embeds Python `str.strip()`: removes leading and trailing whitespace. -/
def pyStrip (s : String) : String :=
  String.mk (((s.data.dropWhile Char.isWhitespace).reverse.dropWhile
    Char.isWhitespace).reverse)

/-- Embeds Python `str.lower()` for the ASCII strings the code compares. -/
def pyLower (s : String) : String :=
  String.mk (s.data.map Char.toLower)

/- ## Turn Segmenter (`create_transcript`, src/utils.py lines 155-192;
   the copy in src/app.py lines 58-81 runs the identical word loop).
   A word carries a speaker id (`word_struct["speaker"]`) and its text
   (`word_struct["punctuated_word"]`); a turn is a speaker id paired with
   the accumulated line text. -/

/-- Embeds the word loop of `create_transcript` (utils.py lines 169-186) at
the level of (speaker, line) turns. State: `curr_speaker` and `curr_line`;
on a matching speaker `curr_line` grows by a single space plus the word, on
a speaker change the pending turn is emitted and the accumulator restarts
as a single space plus the word; after the loop the final in-progress turn
is always appended. -/
def segLoop : Nat → String → List (Nat × String) → List (Nat × String)
  | currSpeaker, currLine, [] => [(currSpeaker, currLine)]
  | currSpeaker, currLine, (s, w) :: rest =>
    if s = currSpeaker then
      segLoop currSpeaker (currLine ++ (" " ++ w)) rest
    else
      (currSpeaker, currLine) :: segLoop s (" " ++ w) rest

/-- The operation the spec calls `segment(words)`: the turn-level content
of `create_transcript`, with `curr_speaker` initialised to `0` and
`curr_line` to the empty string exactly as utils.py lines 169-170 do. -/
def segment (words : List (Nat × String)) : List (Nat × String) :=
  segLoop 0 "" words

/-- Renders one turn as the code does at utils.py lines 179 and 186: the
SPEAKER tag, a colon, then the accumulated line. -/
def renderTurn (t : Nat × String) : String :=
  "SPEAKER " ++ toString t.1 ++ ":" ++ t.2

/-- Renders the emitted turn list the way `create_transcript` builds `lines`:
every turn closed by a speaker change gets a trailing newline (utils.py line
180), the final turn does not (line 186). -/
def renderLines : List (Nat × String) → List String
  | [] => []
  | [t] => [renderTurn t]
  | t :: ts => (renderTurn t ++ "\n") :: renderLines ts

/-- Embeds `create_transcript` (utils.py lines 155-192): the word loop
followed by the newline join of the rendered lines. -/
def create_transcript (words : List (Nat × String)) : String :=
  String.intercalate "\n" (renderLines (segment words))

/-- The single-space-prefixed join the accumulator produces: each word
contributes a single space followed by its text. -/
def joinSp : List String → String
  | [] => ""
  | w :: ws => (" " ++ w) ++ joinSp ws

/-- Concatenation of the text components of a turn list. -/
def concatTexts : List (Nat × String) → String
  | [] => ""
  | t :: ts => t.2 ++ concatTexts ts

/-- Relation `Grouped words turns`: the turns arise from splitting `words`
into consecutive (possibly empty) speaker-homogeneous groups, in order,
each turn carrying the speaker of its group and the space-prefixed join of
the word texts of that group. -/
inductive Grouped : List (Nat × String) → List (Nat × String) → Prop
  | nil : Grouped [] []
  | cons (s : Nat) (g : List String) (ws ts : List (Nat × String)) :
      Grouped ws ts →
      Grouped (g.map (fun w => (s, w)) ++ ws) ((s, joinSp g) :: ts)

theorem joinSp_snoc (g : List String) (w : String) :
    joinSp (g ++ [w]) = joinSp g ++ (" " ++ w) := by
  induction g with
  | nil => simp [joinSp]
  | cons a as ih => simp [joinSp, ih, String.append_assoc]

theorem segLoop_grouped (rest : List (Nat × String)) :
    ∀ (cs : Nat) (g : List String),
      Grouped (g.map (fun w => (cs, w)) ++ rest) (segLoop cs (joinSp g) rest) := by
  induction rest with
  | nil =>
    intro cs g
    have h := Grouped.cons cs g [] [] Grouped.nil
    simpa [segLoop] using h
  | cons p rest ih =>
    intro cs g
    obtain ⟨s, w⟩ := p
    by_cases hs : s = cs
    · subst hs
      have h := ih s (g ++ [w])
      rw [joinSp_snoc] at h
      simpa [segLoop, String.append_assoc] using h
    · have h := ih s [w]
      have h2 := Grouped.cons cs g ((s, w) :: rest) (segLoop s (joinSp [w]) rest)
        (by simpa [joinSp] using h)
      simpa [segLoop, hs, joinSp, String.append_empty] using h2

theorem segment_grouped (words : List (Nat × String)) :
    Grouped words (segment words) := by
  have h := segLoop_grouped words 0 []
  simpa [segment, joinSp] using h

theorem segLoop_concatTexts (rest : List (Nat × String)) :
    ∀ (cs : Nat) (cl : String),
      concatTexts (segLoop cs cl rest) = cl ++ joinSp (rest.map Prod.snd) := by
  induction rest with
  | nil => intro cs cl; simp [segLoop, concatTexts, joinSp]
  | cons p rest ih =>
    intro cs cl
    obtain ⟨s, w⟩ := p
    by_cases hs : s = cs
    · subst hs
      simp [segLoop, concatTexts, joinSp, ih, String.append_assoc]
    · simp [segLoop, hs, concatTexts, joinSp, ih, String.append_assoc]

theorem segment_concatTexts (words : List (Nat × String)) :
    concatTexts (segment words) = joinSp (words.map Prod.snd) := by
  simpa [segment] using segLoop_concatTexts words 0 ""

/-- C1: for every Word sequence, the turns of `segment` partition the words
into consecutive speaker-homogeneous groups whose texts are the single-space
joins of the words in each group (`Grouped`), so the concatenated turn
texts equal the space-separated concatenation of all word texts; and on the
example of the spec, `[(0,Hi),(0,there),(1,Hello),(0,Bye)]`, the turns,
after dropping the leading accumulator space, are exactly
`[(0,Hi there),(1,Hello),(0,Bye)]`. -/
theorem C1_segment_reconstruction :
    (∀ words : List (Nat × String), Grouped words (segment words)) ∧
    (∀ words : List (Nat × String),
      concatTexts (segment words) = joinSp (words.map Prod.snd)) ∧
    (segment [(0, "Hi"), (0, "there"), (1, "Hello"), (0, "Bye")]).map
        (fun t => (t.1, t.2.drop 1))
      = [(0, "Hi there"), (1, "Hello"), (0, "Bye")] := by
  refine ⟨segment_grouped, segment_concatTexts, ?_⟩
  decide

/- ## C2: speaker order of the emitted turns. -/

/-- Collapses adjacent equal speaker ids: the sequence of speaker runs. -/
def dedupAdj : List Nat → List Nat
  | [] => []
  | [s] => [s]
  | s :: s2 :: rest =>
    if s = s2 then dedupAdj (s2 :: rest) else s :: dedupAdj (s2 :: rest)

theorem dedupAdj_head (l : List Nat) (a : Nat) :
    (dedupAdj (a :: l)).head? = some a := by
  induction l generalizing a with
  | nil => simp [dedupAdj]
  | cons b r ih =>
    by_cases h : a = b
    · subst h; simp [dedupAdj, ih]
    · simp [dedupAdj, h]

theorem dedupAdj_chain (l : List Nat) :
    List.Chain' (fun a b => a ≠ b) (dedupAdj l) := by
  match l with
  | [] => simp [dedupAdj]
  | [s] => simp [dedupAdj]
  | s :: s2 :: rest =>
    have ih := dedupAdj_chain (s2 :: rest)
    by_cases h : s = s2
    · simpa [dedupAdj, h] using ih
    · have hh := dedupAdj_head rest s2
      rw [dedupAdj, if_neg h]
      cases hd : dedupAdj (s2 :: rest) with
      | nil => simp
      | cons x xs =>
        rw [hd] at ih hh
        simp only [List.head?_cons, Option.some.injEq] at hh
        subst hh
        exact List.chain'_cons.mpr ⟨h, ih⟩

theorem segLoop_speakers (rest : List (Nat × String)) :
    ∀ (cs : Nat) (cl : String),
      (segLoop cs cl rest).map Prod.fst = dedupAdj (cs :: rest.map Prod.fst) := by
  induction rest with
  | nil => intro cs cl; simp [segLoop, dedupAdj]
  | cons p rest ih =>
    intro cs cl
    obtain ⟨s, w⟩ := p
    by_cases hs : s = cs
    · subst hs
      simp [segLoop, dedupAdj, ih]
    · have hs2 : cs ≠ s := fun h => hs h.symm
      simp [segLoop, hs, dedupAdj, hs2, ih]

theorem segment_speakers (words : List (Nat × String)) :
    (segment words).map Prod.fst = dedupAdj (0 :: words.map Prod.fst) :=
  segLoop_speakers words 0 ""

/-- C2 counterexample: the claim says turns appear in the order their speaker
runs first appear (current speaker initialised to the speaker of the first
word), so on `[(1, "Hello")]` — whose only run belongs to speaker 1 — the
emitted speakers would be `[1]`. The code initialises `curr_speaker` to `0`
(utils.py line 169) and therefore emits a leading empty turn for speaker 0:
the speakers are `[0, 1]`, and the first turn is `(0, "")`. -/
theorem C2_counterexample :
    (segment [(1, "Hello")]).map Prod.fst ≠
        dedupAdj ([(1, "Hello")].map (fun w => w.1)) ∧
    segment [(1, "Hello")] = [(0, ""), (1, " Hello")] := by
  constructor
  · decide
  · decide

/-- C2 amended: `segment` initialises its current speaker to `0` regardless
of the input. When the input is empty, or starts with speaker `0`, the
emitted speakers are exactly the run speakers (`[0]` for empty input); when
the speaker of the first word is nonzero, one extra initial empty turn for
speaker `0` precedes the run turns. In every case no two adjacent emitted
turns share a speaker id. -/
theorem C2_amended (words : List (Nat × String)) :
    ((segment words).map Prod.fst =
      match words with
      | [] => [0]
      | (s, _) :: _ =>
        if s = 0 then dedupAdj (words.map Prod.fst)
        else 0 :: dedupAdj (words.map Prod.fst)) ∧
    List.Chain' (fun a b => a ≠ b) ((segment words).map Prod.fst) := by
  constructor
  · rw [segment_speakers]
    match words with
    | [] => simp [dedupAdj]
    | (s, w) :: rest =>
      by_cases h : s = 0
      · subst h; simp [dedupAdj]
      · have h2 : (0 : Nat) ≠ s := fun hh => h hh.symm
        simp [dedupAdj, h2, h]
  · rw [segment_speakers]
    exact dedupAdj_chain _

/- ## C9: behaviour of `create_transcript` on word records with missing
   fields. A word record is a Python dict; the loop reads
   `word_struct["speaker"]` and then `word_struct["punctuated_word"]`
   (utils.py lines 173-174), and a missing key raises `KeyError(key)`,
   which the catch-all handler of the function logs and re-raises
   unchanged (lines 190-192). -/

/-- A raw word record: either field may be absent from the dict. -/
structure RawWord where
  speaker : Option Nat
  punctuated_word : Option String
deriving DecidableEq

/-- The exception a dict subscript raises: `KeyError(key)` carries only the
name of the missing key. -/
inductive PyError where
  | keyError : String → PyError
deriving DecidableEq

/-- Embeds Python dict subscripting `word_struct[key]`. -/
def getKey {A : Type} (o : Option A) (key : String) : Except PyError A :=
  match o with
  | some v => Except.ok v
  | none => Except.error (PyError.keyError key)

/-- The word loop of `create_transcript` over raw records, propagating the
`KeyError` of the first missing field exactly as the Python loop does. -/
def segLoopE : Nat → String → List RawWord → Except PyError (List (Nat × String))
  | cs, cl, [] => Except.ok [(cs, cl)]
  | cs, cl, w :: rest =>
    match getKey w.speaker "speaker" with
    | Except.error e => Except.error e
    | Except.ok s =>
      match getKey w.punctuated_word "punctuated_word" with
      | Except.error e => Except.error e
      | Except.ok t =>
        if s = cs then segLoopE cs (cl ++ (" " ++ t)) rest
        else
          match segLoopE s (" " ++ t) rest with
          | Except.error e => Except.error e
          | Except.ok ts => Except.ok ((cs, cl) :: ts)

/-- Segmentation over raw records, with the initial state of the code. -/
def segmentE (ws : List RawWord) : Except PyError (List (Nat × String)) :=
  segLoopE 0 "" ws

/-- A record is offending when either required field is absent. -/
def offending (w : RawWord) : Bool :=
  w.speaker.isNone || w.punctuated_word.isNone

theorem segLoopE_offender (ws : List RawWord) :
    ∀ (cs : Nat) (cl : String) (w : RawWord),
      ws.find? offending = some w →
      segLoopE cs cl ws = Except.error (PyError.keyError
        (if w.speaker.isNone then "speaker" else "punctuated_word")) := by
  induction ws with
  | nil => intro cs cl w h; simp [List.find?] at h
  | cons a rest ih =>
    intro cs cl w h
    by_cases ha : offending a = true
    · rw [List.find?_cons_of_pos _ ha] at h
      injection h with h2
      subst h2
      cases hsp : a.speaker with
      | none => simp [segLoopE, getKey, hsp]
      | some s =>
        have hpw : a.punctuated_word = none := by
          cases hpw : a.punctuated_word with
          | none => rfl
          | some t => simp [offending, hsp, hpw] at ha
        simp [segLoopE, getKey, hsp, hpw]
    · have ha2 : ¬ offending a = true := ha
      rw [List.find?_cons_of_neg _ ha2] at h
      have hsp : a.speaker.isSome := by
        cases hs : a.speaker with
        | none => simp [offending, hs] at ha2
        | some s => rfl
      have hpw : a.punctuated_word.isSome := by
        cases hp : a.punctuated_word with
        | none => simp [offending, hp] at ha2
        | some t => rfl
      obtain ⟨s, hs⟩ := Option.isSome_iff_exists.mp hsp
      obtain ⟨t, ht⟩ := Option.isSome_iff_exists.mp hpw
      by_cases hcs : s = cs
      · simp [segLoopE, getKey, hs, ht, hcs, ih _ _ _ h]
      · simp [segLoopE, getKey, hs, ht, hcs, ih _ _ _ h]

/-- C9 counterexample: the claim says the failure names the index of the
offending record. The code raises `KeyError("speaker")`, which carries only
the field name: the input whose offending record sits at index 0 and the
input whose offending record sits at index 1 produce the identical error,
so the error cannot name the offending index. -/
theorem C9_counterexample :
    segmentE [⟨none, some "Hi"⟩] = Except.error (PyError.keyError "speaker") ∧
    segmentE [⟨some 0, some "Hi"⟩, ⟨none, some "x"⟩] =
      Except.error (PyError.keyError "speaker") := by
  constructor
  · rfl
  · rfl

/-- C9 amended: for every word sequence containing a record lacking the
`speaker` or the `punctuated_word` field, segmentation fails with the
`KeyError` of the first missing field of the first offending record (the
`speaker` key is read first); the record is not silently skipped and the
error is re-raised to the caller unchanged — but the error names the missing
field, not the index of the offending record. -/
theorem C9_amended (ws : List RawWord) (w : RawWord)
    (h : ws.find? offending = some w) :
    segmentE ws = Except.error (PyError.keyError
      (if w.speaker.isNone then "speaker" else "punctuated_word")) :=
  segLoopE_offender ws 0 "" w h

/-- Witness for C9 amended at a concrete malformed input. -/
theorem C9_amended_witness :
    segmentE [⟨some 0, some "Hi"⟩, ⟨none, some "x"⟩] =
      Except.error (PyError.keyError "speaker") := by
  have h := C9_amended [⟨some 0, some "Hi"⟩, ⟨none, some "x"⟩]
    ⟨none, some "x"⟩ (by decide)
  simpa using h

/- ## Live Transcript Aggregator (src/deepgram_live.py and live_speech.py).
   The collector state is the `transcript_parts` list; the live session state
   additionally records the invocations of the registered callback and
   whether `transcription_complete.set()` has been called. -/

namespace DeepgramLive

/-- Embeds `TranscriptCollector.add_part` of src/deepgram_live.py (lines
24-25): appends unconditionally. -/
def add_part (parts : List String) (part : String) : List String :=
  parts ++ [part]

/-- Embeds `TranscriptCollector.get_full_transcript` (lines 27-28): the
space join of `self.transcript_parts`. -/
def get_full_transcript (parts : List String) : String :=
  String.intercalate " " parts

/-- Embeds `TranscriptCollector.reset` (lines 21-22): the cleared buffer. -/
def resetParts : List String := []

/-- The operation the spec calls `finalize()`: the sequence `on_message`
performs at a finalize event (deepgram_live.py lines 60 and 66) —
`get_full_transcript` followed by `reset` — returning the joined text and
the cleared buffer. -/
def finalize (parts : List String) : String × List String :=
  (get_full_transcript parts, resetParts)

/-- A live recognition event as `on_message` consumes it: the transcript of
`result.channel.alternatives[0]` and the `is_final` / `speech_final` flags. -/
structure Event where
  transcript : String
  is_final : Bool
  speech_final : Bool
deriving DecidableEq

/-- The observable state of one live session: the `transcript_parts` of the
collector, the texts the registered callback has been invoked with (in
order), and whether `transcription_complete.set()` has run. -/
structure LiveState where
  collector : List String
  callbackLog : List String
  completeSet : Bool
deriving DecidableEq

/-- Session state at the start of `process_audio`: empty collector, no
callback invocations, `transcription_complete` not set. -/
def initState : LiveState := ⟨[], [], false⟩

/-- Embeds `DeepgramLiveTranscriber.on_message` (deepgram_live.py lines
48-72). `raises full = true` models a registered callback that raises when
invoked with `full`; the surrounding try/except catches and logs the error,
so the state is left exactly as mutated up to that point (in particular the
reset at line 66 and the `set()` at line 69 are skipped). Blank transcripts
are ignored at line 53-54; `is_final` is never consulted. -/
def on_message (raises : String → Bool) (st : LiveState) (ev : Event) :
    LiveState :=
  if pyStrip ev.transcript = "" then st
  else if ev.speech_final = false then
    { st with collector := add_part st.collector ev.transcript }
  else
    let parts := add_part st.collector ev.transcript
    let full_sentence := get_full_transcript parts
    if pyStrip full_sentence = "" then
      { collector := resetParts, callbackLog := st.callbackLog,
        completeSet := true }
    else if raises full_sentence then
      { collector := parts,
        callbackLog := st.callbackLog ++ [full_sentence],
        completeSet := st.completeSet }
    else
      { collector := resetParts,
        callbackLog := st.callbackLog ++ [full_sentence],
        completeSet := true }

/-- Feeds a list of recognition events to `on_message` in order. -/
def processEvents (raises : String → Bool) (st : LiveState)
    (evs : List Event) : LiveState :=
  evs.foldl (on_message raises) st

/-- Embeds the event-consumption discipline of
`DeepgramLiveTranscriber.process_audio` (deepgram_live.py lines 102-140):
events are handed to `on_message` until `transcription_complete` is set, at
which point `await self.transcription_complete.wait()` returns and the
session tears down (stop the audio source, finish the connection); the
events not consumed are returned alongside the final state. -/
def runSession (raises : String → Bool) :
    LiveState → List Event → LiveState × List Event
  | st, [] => (st, [])
  | st, ev :: rest =>
    if st.completeSet then (st, ev :: rest)
    else runSession raises (on_message raises st ev) rest

theorem on_message_blank (raises : String → Bool) (st : LiveState)
    (ev : Event) (h : pyStrip ev.transcript = "") :
    on_message raises st ev = st := by
  simp [on_message, h]

theorem on_message_final_raises (raises : String → Bool) (st : LiveState)
    (ev : Event) (hf : ev.speech_final = true)
    (hne : pyStrip ev.transcript ≠ "")
    (hfull : pyStrip (get_full_transcript (add_part st.collector ev.transcript)) ≠ "")
    (hr : raises (get_full_transcript (add_part st.collector ev.transcript)) = true) :
    on_message raises st ev =
      { collector := add_part st.collector ev.transcript,
        callbackLog := st.callbackLog ++
          [get_full_transcript (add_part st.collector ev.transcript)],
        completeSet := st.completeSet } := by
  simp [on_message, hf, hne, hfull, hr]

theorem on_message_final_ok (raises : String → Bool) (st : LiveState)
    (ev : Event) (hf : ev.speech_final = true)
    (hne : pyStrip ev.transcript ≠ "")
    (hfull : pyStrip (get_full_transcript (add_part st.collector ev.transcript)) ≠ "")
    (hr : raises (get_full_transcript (add_part st.collector ev.transcript)) = false) :
    on_message raises st ev =
      { collector := [],
        callbackLog := st.callbackLog ++
          [get_full_transcript (add_part st.collector ev.transcript)],
        completeSet := true } := by
  simp [on_message, hf, hne, hfull, hr, resetParts]

theorem runSession_complete (raises : String → Bool) (st : LiveState)
    (rest : List Event) (h : st.completeSet = true) :
    runSession raises st rest = (st, rest) := by
  cases rest with
  | nil => simp [runSession]
  | cons ev r => simp [runSession, h]

end DeepgramLive

namespace LiveSpeech

/-- Embeds `TranscriptCollector.add_part` of live_speech.py (lines 22-24):
appends only when the part is non-empty after `strip()`. -/
def add_part (parts : List String) (part : String) : List String :=
  if pyStrip part = "" then parts else parts ++ [part]

end LiveSpeech

/-- The "space-joined concatenation of `fragments` in insertion order" of
the spec, written as the spec describes it, independently of the space
join used by the code. -/
def specSpaceJoin : List String → String
  | [] => ""
  | [x] => x
  | x :: xs => x ++ " " ++ specSpaceJoin xs

theorem intercalate_go_eq (as : List String) :
    ∀ acc : String, String.intercalate.go acc " " as = acc ++ joinSp as := by
  induction as with
  | nil => intro acc; simp [String.intercalate.go, joinSp]
  | cons a as ih =>
    intro acc
    simp [String.intercalate.go, ih, joinSp, String.append_assoc]

theorem specSpaceJoin_cons (as : List String) :
    ∀ a : String, specSpaceJoin (a :: as) = a ++ joinSp as := by
  induction as with
  | nil => intro a; simp [specSpaceJoin, joinSp]
  | cons b bs ih =>
    intro a
    simp only [specSpaceJoin, joinSp, ih b, String.append_assoc]

theorem intercalate_space_eq (l : List String) :
    String.intercalate " " l = specSpaceJoin l := by
  cases l with
  | nil => rfl
  | cons a as =>
    simp [String.intercalate, intercalate_go_eq, specSpaceJoin_cons]

/-- C3 counterexample: feeding the three scenario events to `on_message`
from the initial session state invokes the callback exactly once, but with
the text `"Hel Hello  world"`, not `"Hello world"`: the handler never
consults `is_final`, so the interim fragment `"Hel"` is also accumulated,
and the raw fragment `" world"` keeps its leading space when joined. -/
theorem C3_counterexample :
    (DeepgramLive.processEvents (fun _ => false) DeepgramLive.initState
        [⟨"Hel", false, false⟩, ⟨"Hello", true, false⟩, ⟨" world", true, true⟩]).callbackLog
      ≠ ["Hello world"] ∧
    (DeepgramLive.processEvents (fun _ => false) DeepgramLive.initState
        [⟨"Hel", false, false⟩, ⟨"Hello", true, false⟩, ⟨" world", true, true⟩]).callbackLog
      = ["Hel Hello  world"] := by
  constructor
  · decide
  · decide

/-- C3 amended: on the three scenario events the registered callback is
invoked exactly once, with the text `"Hel Hello  world"` — the handler
ignores `is_final`, accumulating every non-blank result (interim ones
included) and joining the raw fragments with single spaces. Afterwards the
collector is reset and `transcription_complete` is set. -/
theorem C3_amended :
    DeepgramLive.processEvents (fun _ => false) DeepgramLive.initState
        [⟨"Hel", false, false⟩, ⟨"Hello", true, false⟩, ⟨" world", true, true⟩]
      = { collector := [], callbackLog := ["Hel Hello  world"],
          completeSet := true } := by
  decide

/-- C4: for every aggregator state, `finalize` returns the space-joined
concatenation of the accumulated fragments in insertion order (the spec-side
join) and clears the fragment buffer, and a second `finalize` immediately
after returns the empty string. -/
theorem C4_finalize_spec (parts : List String) :
    (DeepgramLive.finalize parts).1 = specSpaceJoin parts ∧
    (DeepgramLive.finalize parts).2 = [] ∧
    (DeepgramLive.finalize (DeepgramLive.finalize parts).2).1 = "" := by
  refine ⟨?_, rfl, rfl⟩
  exact intercalate_space_eq parts

/-- C5 counterexample: the `TranscriptCollector.add_part` of
src/deepgram_live.py (lines 24-25) appends unconditionally — it has no
trim guard — so `add_part("   ")` is not a no-op: a subsequent finalize
returns a different string (extra blanks are joined in). -/
theorem C5_counterexample :
    (DeepgramLive.finalize (DeepgramLive.add_part ["a"] "   ")).1 ≠
      (DeepgramLive.finalize ["a"]).1 := by
  decide

/-- C5 amended: the `add_part` of live_speech.py (lines 22-24) behaves as
claimed — blank text (empty after stripping) is a no-op, leaving a
subsequent finalize unchanged, and non-blank text is appended — whereas the
`add_part` of src/deepgram_live.py appends unconditionally; in the live
path its caller `on_message` discards blank transcripts before ever calling
`add_part`, so blank fragments still never change the session state there. -/
theorem C5_amended :
    (∀ (parts : List String) (text : String), pyStrip text = "" →
      LiveSpeech.add_part parts text = parts ∧
      (DeepgramLive.finalize (LiveSpeech.add_part parts text)).1 =
        (DeepgramLive.finalize parts).1) ∧
    (∀ (parts : List String) (text : String), pyStrip text ≠ "" →
      LiveSpeech.add_part parts text = parts ++ [text]) ∧
    (∀ (raises : String → Bool) (st : DeepgramLive.LiveState)
        (ev : DeepgramLive.Event), pyStrip ev.transcript = "" →
      DeepgramLive.on_message raises st ev = st) := by
  refine ⟨?_, ?_, ?_⟩
  · intro parts text h
    have he : LiveSpeech.add_part parts text = parts := by
      simp [LiveSpeech.add_part, h]
    exact ⟨he, by rw [he]⟩
  · intro parts text h
    simp [LiveSpeech.add_part, h]
  · intro raises st ev h
    exact DeepgramLive.on_message_blank raises st ev h

/-- Witness for C5 amended at concrete blank and non-blank fragments. -/
theorem C5_amended_witness :
    LiveSpeech.add_part ["a"] "   " = ["a"] ∧
    (DeepgramLive.finalize (LiveSpeech.add_part ["a"] "   ")).1 =
      (DeepgramLive.finalize ["a"]).1 ∧
    LiveSpeech.add_part ["a"] "b" = ["a", "b"] ∧
    DeepgramLive.on_message (fun _ => false) DeepgramLive.initState
      ⟨"  ", true, true⟩ = DeepgramLive.initState := by
  refine ⟨(C5_amended.1 ["a"] "   " (by decide)).1,
    (C5_amended.1 ["a"] "   " (by decide)).2,
    C5_amended.2.1 ["a"] "b" (by decide),
    C5_amended.2.2 (fun _ => false) DeepgramLive.initState
      ⟨"  ", true, true⟩ (by decide)⟩

/-- C6 counterexample: in `on_message` the callback is invoked at line 64,
before the reset at line 66. With a callback that raises, processing the
finalize event `("Hello", final, speech_final)` from the initial state
leaves the collector holding `["Hello"]` — the callback was invoked (the
log records it), yet the accumulated state was never reset. -/
theorem C6_counterexample :
    (DeepgramLive.on_message (fun _ => true) DeepgramLive.initState
        ⟨"Hello", true, true⟩).collector ≠ [] ∧
    (DeepgramLive.on_message (fun _ => true) DeepgramLive.initState
        ⟨"Hello", true, true⟩).callbackLog = ["Hello"] := by
  constructor
  · decide
  · decide

/-- C6 amended: when a finalize event fires, the callback is invoked before
the fragment-buffer reset. A callback that raises skips the reset (the
catch-all handler merely logs), leaving the accumulated fragments in
place and `transcription_complete` unset; only when the callback returns
normally is the buffer cleared afterwards. -/
theorem C6_amended (raises : String → Bool) (st : DeepgramLive.LiveState)
    (ev : DeepgramLive.Event) (hf : ev.speech_final = true)
    (hne : pyStrip ev.transcript ≠ "")
    (hfull : pyStrip (DeepgramLive.get_full_transcript
      (DeepgramLive.add_part st.collector ev.transcript)) ≠ "") :
    (raises (DeepgramLive.get_full_transcript
        (DeepgramLive.add_part st.collector ev.transcript)) = true →
      DeepgramLive.on_message raises st ev =
        { collector := DeepgramLive.add_part st.collector ev.transcript,
          callbackLog := st.callbackLog ++ [DeepgramLive.get_full_transcript
            (DeepgramLive.add_part st.collector ev.transcript)],
          completeSet := st.completeSet }) ∧
    (raises (DeepgramLive.get_full_transcript
        (DeepgramLive.add_part st.collector ev.transcript)) = false →
      DeepgramLive.on_message raises st ev =
        { collector := [],
          callbackLog := st.callbackLog ++ [DeepgramLive.get_full_transcript
            (DeepgramLive.add_part st.collector ev.transcript)],
          completeSet := true }) :=
  ⟨fun hr => DeepgramLive.on_message_final_raises raises st ev hf hne hfull hr,
   fun hr => DeepgramLive.on_message_final_ok raises st ev hf hne hfull hr⟩

/-- Witness for C6 amended: a raising callback on a concrete finalize event
leaves the collector un-reset. -/
theorem C6_amended_witness :
    DeepgramLive.on_message (fun _ => true) DeepgramLive.initState
        ⟨"Hi", true, true⟩ =
      { collector := ["Hi"], callbackLog := ["Hi"], completeSet := false } := by
  have h := (C6_amended (fun _ => true) DeepgramLive.initState
    ⟨"Hi", true, true⟩ rfl (by decide) (by decide)).1 rfl
  simpa [DeepgramLive.add_part, DeepgramLive.get_full_transcript,
    DeepgramLive.initState] using h

/-- C7 counterexample: `on_message` sets `transcription_complete` on every
`speech_final` result, and `process_audio` returns from its wait as soon as
that event is set. With a finalized utterance followed by a further result,
the session stops after the first finalize and leaves the second event
unconsumed — the session does terminate merely because an utterance was
finalized. -/
theorem C7_counterexample :
    (DeepgramLive.runSession (fun _ => false) DeepgramLive.initState
        [⟨"Hi", true, true⟩, ⟨"more", true, false⟩]).2 ≠ [] ∧
    DeepgramLive.runSession (fun _ => false) DeepgramLive.initState
        [⟨"Hi", true, true⟩, ⟨"more", true, false⟩] =
      ({ collector := [], callbackLog := ["Hi"], completeSet := true },
        [⟨"more", true, false⟩]) := by
  constructor
  · decide
  · decide

/-- C7 amended: after a `speech_final` result triggers a finalize and the
callback returns normally, the collector is indeed reset (ready to
accumulate), but `on_message` also sets `transcription_complete`, so the
session consumes no further results: the wait in `process_audio` returns
and the session tears down after the first finalized utterance, not only at
end-of-stream or on a connection error. -/
theorem C7_amended (raises : String → Bool) (st : DeepgramLive.LiveState)
    (ev : DeepgramLive.Event) (hf : ev.speech_final = true)
    (hne : pyStrip ev.transcript ≠ "")
    (hfull : pyStrip (DeepgramLive.get_full_transcript
      (DeepgramLive.add_part st.collector ev.transcript)) ≠ "")
    (hr : raises (DeepgramLive.get_full_transcript
      (DeepgramLive.add_part st.collector ev.transcript)) = false) :
    (DeepgramLive.on_message raises st ev).collector = [] ∧
    (DeepgramLive.on_message raises st ev).completeSet = true ∧
    ∀ rest : List DeepgramLive.Event,
      DeepgramLive.runSession raises (DeepgramLive.on_message raises st ev)
        rest = (DeepgramLive.on_message raises st ev, rest) := by
  have h := DeepgramLive.on_message_final_ok raises st ev hf hne hfull hr
  refine ⟨by rw [h], by rw [h], ?_⟩
  intro rest
  exact DeepgramLive.runSession_complete raises _ rest (by rw [h])

/-- Witness for C7 amended on a concrete finalized utterance followed by a
further event. -/
theorem C7_amended_witness :
    (DeepgramLive.on_message (fun _ => false) DeepgramLive.initState
        ⟨"Hi", true, true⟩).collector = [] ∧
    (DeepgramLive.on_message (fun _ => false) DeepgramLive.initState
        ⟨"Hi", true, true⟩).completeSet = true ∧
    DeepgramLive.runSession (fun _ => false)
        (DeepgramLive.on_message (fun _ => false) DeepgramLive.initState
          ⟨"Hi", true, true⟩) [⟨"more", true, false⟩] =
      (DeepgramLive.on_message (fun _ => false) DeepgramLive.initState
        ⟨"Hi", true, true⟩, [⟨"more", true, false⟩]) := by
  have h := C7_amended (fun _ => false) DeepgramLive.initState
    ⟨"Hi", true, true⟩ rfl (by decide) (by decide) rfl
  exact ⟨h.1, h.2.1, h.2.2 [⟨"more", true, false⟩]⟩

/- ## Retry-wrapped external call (`MoMGenerator.generate_mom`,
   src/mom_generator.py lines 91-122). The prompt is computed once before
   the loop (line 103), so every attempt issues the identical request; the
   external `chat.completions.create` outcome on attempt `a` is modelled by
   an oracle `call a`. -/

/-- Whether an attempt outcome is a success. -/
def isOkE {E R : Type} : Except E R → Bool
  | Except.ok _ => true
  | Except.error _ => false

/-- Models the loop `for attempt in range(max_retries)` of `generate_mom`
from iteration `attempt` with `remaining` iterations left. A success
returns immediately (line 115); a failing final attempt (`attempt ==
max_retries - 1`, line 118) re-raises; a failing non-final attempt logs and
continues. Returns the surfaced outcome (`none` models the implicit Python
`None` when the loop body never runs) paired with the number of attempts
made. -/
def retryGo {E R : Type} (call : Nat → Except E R) :
    Nat → Nat → Option (Except E R) × Nat
  | _, 0 => (none, 0)
  | attempt, r + 1 =>
    match call attempt with
    | Except.ok v => (some (Except.ok v), 1)
    | Except.error e =>
      if r = 0 then (some (Except.error e), 1)
      else
        let res := retryGo call (attempt + 1) r
        (res.1, res.2 + 1)

/-- Embeds the retry loop of `MoMGenerator.generate_mom` (what the spec
calls `call_with_retry`): attempts start at index 0 and run for
`max_retries` iterations. -/
def generate_mom {E R : Type} (call : Nat → Except E R)
    (max_retries : Nat) : Option (Except E R) × Nat :=
  retryGo call 0 max_retries

theorem retryGo_attempts_le {E R : Type} (call : Nat → Except E R) :
    ∀ (r a : Nat), (retryGo call a r).2 ≤ r := by
  intro r
  induction r with
  | zero => intro a; simp [retryGo]
  | succ r ih =>
    intro a
    cases hc : call a with
    | ok v => simp [retryGo, hc]
    | error e =>
      by_cases hr : r = 0
      · simp [retryGo, hc, hr]
      · simp only [retryGo, hc, if_neg hr]
        have := ih (a + 1)
        omega

theorem retryGo_first_success {E R : Type} (call : Nat → Except E R) :
    ∀ (k r a : Nat), k < r →
      (∀ j, j < k → isOkE (call (a + j)) = false) →
      isOkE (call (a + k)) = true →
      retryGo call a r = (some (call (a + k)), k + 1) := by
  intro k
  induction k with
  | zero =>
    intro r a hk _ hok
    obtain ⟨r2, rfl⟩ : ∃ r2, r = r2 + 1 := ⟨r - 1, by omega⟩
    cases hc : call a with
    | ok v => simp [retryGo, hc]
    | error e => rw [Nat.add_zero, hc] at hok; simp [isOkE] at hok
  | succ k ih =>
    intro r a hk hfail hok
    obtain ⟨r2, rfl⟩ : ∃ r2, r = r2 + 1 := ⟨r - 1, by omega⟩
    have hk2 : k < r2 := by omega
    have h0 : isOkE (call a) = false := by
      have := hfail 0 (by omega)
      simpa using this
    cases hc : call a with
    | ok v => rw [hc] at h0; simp [isOkE] at h0
    | error e =>
      have hr2 : r2 ≠ 0 := by omega
      have hfail2 : ∀ j, j < k → isOkE (call (a + 1 + j)) = false := by
        intro j hj
        have := hfail (j + 1) (by omega)
        rwa [show a + (j + 1) = a + 1 + j by omega] at this
      have hok2 : isOkE (call (a + 1 + k)) = true := by
        rwa [show a + (k + 1) = a + 1 + k by omega] at hok
      have hrec := ih r2 (a + 1) hk2 hfail2 hok2
      simp only [retryGo, hc, if_neg hr2, hrec]
      rw [show a + 1 + k = a + (k + 1) by omega]

theorem retryGo_all_fail {E R : Type} (call : Nat → Except E R) :
    ∀ (r a : Nat), 0 < r →
      (∀ j, j < r → isOkE (call (a + j)) = false) →
      retryGo call a r = (some (call (a + (r - 1))), r) := by
  intro r
  induction r with
  | zero => intro a h; omega
  | succ r2 ih =>
    intro a _ hfail
    have h0 : isOkE (call a) = false := by
      have := hfail 0 (by omega)
      simpa using this
    cases hc : call a with
    | ok v => rw [hc] at h0; simp [isOkE] at h0
    | error e =>
      by_cases hr2 : r2 = 0
      · subst hr2
        simp [retryGo, hc]
      · have hfail2 : ∀ j, j < r2 → isOkE (call (a + 1 + j)) = false := by
          intro j hj
          have := hfail (j + 1) (by omega)
          rwa [show a + (j + 1) = a + 1 + j by omega] at this
        have hrec := ih (a + 1) (by omega) hfail2
        simp only [retryGo, hc, if_neg hr2, hrec]
        rw [show a + 1 + (r2 - 1) = a + (r2 + 1 - 1) by omega]

/-- C8: for every positive `max_attempts`, the retry loop of `generate_mom`
makes at most `max_attempts` attempts with the identical request; if the
first success is at attempt `k` it returns that result after exactly `k + 1`
attempts with no further attempts; and if every attempt fails it surfaces
the failure of the final attempt after exactly `max_attempts` attempts. -/
theorem C8_retry {E R : Type} (call : Nat → Except E R) (m : Nat)
    (hm : 0 < m) :
    (generate_mom call m).2 ≤ m ∧
    (∀ k v, k < m → (∀ j, j < k → isOkE (call j) = false) →
      call k = Except.ok v →
      generate_mom call m = (some (Except.ok v), k + 1)) ∧
    ((∀ j, j < m → isOkE (call j) = false) →
      generate_mom call m = (some (call (m - 1)), m)) := by
  refine ⟨retryGo_attempts_le call m 0, ?_, ?_⟩
  · intro k v hk hfail hok
    have h := retryGo_first_success call k m 0 hk
      (by intro j hj; simpa using hfail j hj)
      (by simp [hok, isOkE])
    simpa [generate_mom, hok] using h
  · intro hfail
    have h := retryGo_all_fail call m 0 hm
      (by intro j hj; simpa using hfail j hj)
    simpa [generate_mom] using h

/-- Witness for C8 at `max_attempts = 3`: a call that always fails is
attempted exactly 3 times and the last failure is surfaced; a call that
fails twice then succeeds returns the success after exactly 3 attempts. -/
theorem C8_retry_witness :
    (0 : Nat) < 3 ∧
    generate_mom (fun _ => (Except.error "boom" : Except String Nat)) 3 =
      (some (Except.error "boom"), 3) ∧
    generate_mom
        (fun k => if k < 2 then (Except.error "boom" : Except String Nat)
          else Except.ok 42) 3 =
      (some (Except.ok 42), 3) := by
  refine ⟨by decide, ?_, ?_⟩
  · have h := (C8_retry (fun _ => (Except.error "boom" : Except String Nat))
      3 (by decide)).2.2 (fun j hj => rfl)
    simpa using h
  · have h := (C8_retry
      (fun k => if k < 2 then (Except.error "boom" : Except String Nat)
        else Except.ok 42) 3 (by decide)).2.1 2 42 (by decide)
      (by decide) rfl
    simpa using h

/- ## Translation dispatch (`MoMGenerator.translate_text`,
   src/mom_generator.py lines 19-54). -/

/-- The prompt `translate_text` builds for a non-English target (lines
33-42 of mom_generator.py), with its f-string interpolations. -/
def translatePrompt (text target_language : String) : String :=
  "\n        Translate the following diarized output to " ++ target_language
    ++ ":\n        \n        " ++ text
    ++ "\n        \n        This is output text from a diarization model having multiple speakers. \n        Find the person names from the output text given here and replace the speaker ids \n        with corresponding person names. Generate complete words in "
    ++ target_language
    ++ ".\n        Give the output in conversational manner.\n        "

/-- Embeds `MoMGenerator.translate_text` (mom_generator.py lines 19-54).
`api prompt` models the external `self.client.chat.completions.create`
call returning the response text; the second component counts the external
service calls made. -/
def translate_text (api : String → String)
    (text target_language : String) : String × Nat :=
  if pyLower target_language = "english" then (text, 0)
  else (api (translatePrompt text target_language), 1)

/-- C10: whenever the target language equals "english" under
case-insensitive comparison, `translate_text` returns the input text
unchanged and makes no external service call. -/
theorem C10_translate_english (api : String → String)
    (text target_language : String)
    (h : pyLower target_language = "english") :
    translate_text api text target_language = (text, 0) := by
  simp [translate_text, h]

/-- Witness for C10 at the mixed-case target "English". -/
theorem C10_translate_english_witness :
    translate_text (fun p => p) "bonjour tout le monde" "English" =
      ("bonjour tout le monde", 0) :=
  C10_translate_english (fun p => p) "bonjour tout le monde" "English" rfl

end MOM
